import Mathlib

/-!
Verification of the two fragments of `adonis-http-dispatcher` in this slice:
the route-tree flattener (`packages/router/lib/toRoutesJSON.ts`) and the
HTTP exception handler (whose behaviour is fixed by the specification and
by `test/exception-handler.spec.ts`; the implementation file itself is not
part of the slice, so it is modelled from the specification).
-/

namespace AdonisDispatcher

/-! ## Route tree flattening (`toRoutesJSON`) -/

/-- Modelled from the spec: the flat route descriptor record
(method, pattern, handler reference, middleware list, deleted flag).
The `Contracts` module that defines `RouteDefination` is not part of this
slice; the field set follows the spec's data model.  A `Route` leaf carries
exactly its descriptor: `route.deleted` is the descriptor's deleted flag and
`route.toJSON()` returns the descriptor. -/
structure RouteDefination where
  method : String
  pattern : String
  handler : String
  middleware : List String
  deleted : Bool
  deriving DecidableEq, Repr

/-- A node of the route tree: a plain `Route` leaf, a `RouteGroup`, or a
`RouteResource`.  Containers carry a `mark` flag so that we can state that
any deleted marker on a container is ignored by the flattener (the source
only ever tests `deleted` on `Route` leaves, after the two `instanceof`
container checks). -/
inductive RouteNode where
  | route (d : RouteDefination)
  | group (mark : Bool) (routes : List RouteNode)
  | resource (mark : Bool) (routes : List RouteNode)
  deriving Repr

/-- Embedding of `toRoutesJSON` from `packages/router/lib/toRoutesJSON.ts`:
the `reduce` starting from `[]` concatenates, left to right, the recursive
flattening of each `RouteGroup`/`RouteResource` and pushes each `Route`
leaf's JSON exactly when its `deleted` flag is false. -/
def toRoutesJSON : List RouteNode → List RouteDefination
  | [] => []
  | RouteNode.group _ rs :: rest => toRoutesJSON rs ++ toRoutesJSON rest
  | RouteNode.resource _ rs :: rest => toRoutesJSON rs ++ toRoutesJSON rest
  | RouteNode.route d :: rest =>
      (if d.deleted then [] else [d]) ++ toRoutesJSON rest

/-- Spec-side definition: all leaf descriptors of the tree in depth-first,
left-to-right traversal order, nothing elided. -/
def dfsLeaves : List RouteNode → List RouteDefination
  | [] => []
  | RouteNode.group _ rs :: rest => dfsLeaves rs ++ dfsLeaves rest
  | RouteNode.resource _ rs :: rest => dfsLeaves rs ++ dfsLeaves rest
  | RouteNode.route d :: rest => d :: dfsLeaves rest

/-! ## HTTP exception handler (`HttpExceptionHandler`)

The implementation file `src/HttpExceptionHandler.ts` is not part of this
slice (only its test file is), so the handler is modelled from the
specification, sections 4.1 (reporter), 4.2 (responder) and 9 (design
notes).  The design notes fix the precedence order: ignore checks run
before custom-hook dispatch. -/

/-- Modelled from the spec: one structured log entry written to the
injected logger — a numeric severity level, a message, and arbitrary extra
keys (request id plus whatever the context hook returns).  Level `50` is
the logger's numeric "error" severity, as asserted by the test file. -/
structure LogEntry where
  level : Nat
  msg : String
  extra : List (String × String)
  deriving DecidableEq, Repr

/-- The logger's numeric "error" severity (`50` in the test file). -/
def errorLevel : Nat := 50

/-- Modelled from the spec: the request context view the handler consumes —
a correlation (request) identifier and the request's Accept header.  The
full `HttpContext` class is framework-owned and out of scope. -/
structure HttpContext where
  requestId : String
  accept : String

/-- Modelled from the spec: the reportable error contract — a message, a
numeric status, an optional machine-readable code, the captured stack text,
an optional custom report hook (given the logger, it decides what entries
to write) and an optional custom handle hook (returns the response body). -/
structure Err where
  message : String
  status : Nat
  code : Option String
  stack : String
  reportHook : Option (HttpContext → List LogEntry)
  handleHook : Option (HttpContext → String)

/-- Modelled from the spec: the handler's configuration — the ignore-code
set (`dontReport`), the ignore-status set (`ignoreStatuses`) and the
overridable context-enrichment hook (default: empty mapping). -/
structure HandlerConfig where
  dontReport : List String
  ignoreStatuses : List Nat
  contextHook : HttpContext → List (String × String)

/-- Modelled from the spec: the error's machine-readable code is present
in the ignore-code set (absent code never matches). -/
def codeIgnored (cfg : HandlerConfig) (error : Err) : Bool :=
  match error.code with
  | some c => decide (c ∈ cfg.dontReport)
  | none => false

/-- Modelled from the spec: the default log message — of the form
`CODE: message` when a code is present, else just the message. -/
def defaultMessage (error : Err) : String :=
  match error.code with
  | some c => c ++ ": " ++ error.message
  | none => error.message

/-- Modelled from the spec, section 4.1: `report(error, ctx)`.  Returned is
the list of entries written to the injected logger.  Steps in order:
ignore by code, ignore by status (both no-ops), custom report hook (the
error owns log formatting), and the default path — one entry at error
severity whose message is `defaultMessage` and whose extra keys are the
request id merged with the context hook's mapping. -/
def report (cfg : HandlerConfig) (error : Err) (ctx : HttpContext) :
    List LogEntry :=
  if codeIgnored cfg error then []
  else if error.status ∈ cfg.ignoreStatuses then []
  else
    match error.reportHook with
    | some hook => hook ctx
    | none =>
        [{ level := errorLevel, msg := defaultMessage error,
           extra := ("x-request-id", ctx.requestId) :: cfg.contextHook ctx }]

/-- Modelled from the spec: the defensive try/catch around a fallible
logger write — a failure raised by the logger is caught and swallowed. -/
def tryLog (write : LogEntry → Except String Unit) (e : LogEntry) :
    Except String Unit :=
  match write e with
  | Except.ok u => Except.ok u
  | Except.error _ => Except.ok ()

/-- Modelled from the spec: `report` performed against a logger whose write
operation may fail; every write goes through the defensive `tryLog`. -/
def reportWith (write : LogEntry → Except String Unit) (cfg : HandlerConfig)
    (error : Err) (ctx : HttpContext) : Except String Unit :=
  (report cfg error ctx).foldlM (fun _ e => tryLog write e) ()

/-- Modelled from the spec: the three response body shapes the responder
can write — plain text/HTML, the JSON object with only a message field,
and the JSON object with message and stack fields. -/
inductive Body where
  | text (s : String)
  | jsonMessage (message : String)
  | jsonMessageStack (message : String) (stack : String)
  deriving DecidableEq, Repr

/-- Modelled from the spec: the youch-style interactive stack-trace page
rendered in development mode for HTML negotiation; its text carries the
"youch" signature the test checks for, the message and the stack. -/
def youchHTML (error : Err) : String :=
  "youch" ++ (": " ++ error.message ++ "\n" ++ error.stack)

/-- Matches the interactive-trace-page signature of the test file: the
body text carries the literal "youch". -/
def hasYouchSignature (s : String) : Prop :=
  ∃ rest, s = "youch" ++ rest

/-- Outcome of `handle`: the value it resolves to when the error's custom
hook ran, and the body/end-flag pair written to the response when the
default rendering ran.  Exactly one of the two is present. -/
structure HandleOutcome where
  returnValue : Option String
  response : Option (Body × Bool)
  deriving DecidableEq, Repr

/-- Modelled from the spec, section 4.2: `handle(error, ctx)`.  A custom
handle hook takes precedence over all default rendering and its result is
returned verbatim.  Otherwise content negotiation on the Accept header:
`text/html` renders HTML (the minimal h1 wrapper, or the youch page in
development mode); anything else renders JSON (message only, or message
plus stack in development mode).  The body is written with end-flag
`false`. -/
def handle (dev : Bool) (error : Err) (ctx : HttpContext) : HandleOutcome :=
  match error.handleHook with
  | some hook => { returnValue := some (hook ctx), response := none }
  | none =>
      let body :=
        if ctx.accept = "text/html" then
          if dev then Body.text (youchHTML error)
          else Body.text ("<h1> " ++ error.message ++ " </h1>")
        else
          if dev then Body.jsonMessageStack error.message error.stack
          else Body.jsonMessage error.message
      { returnValue := none, response := some (body, false) }

/-! ## Theorems for the route flattener claims -/

theorem toRoutesJSON_eq_filter_dfsLeaves (l : List RouteNode) :
    toRoutesJSON l = (dfsLeaves l).filter (fun d => !d.deleted) := by
  induction l using toRoutesJSON.induct with
  | case1 => simp [toRoutesJSON, dfsLeaves]
  | case2 _ rs rest ih1 ih2 => simp [toRoutesJSON, dfsLeaves, ih1, ih2]
  | case3 _ rs rest ih1 ih2 => simp [toRoutesJSON, dfsLeaves, ih1, ih2]
  | case4 d rest ih =>
      cases hd : d.deleted <;> simp [toRoutesJSON, dfsLeaves, ih, hd]

/-- Claim C1: `toRoutesJSON` returns exactly the depth-first, left-to-right
traversal order of the input tree with every deleted leaf elided; empty
input yields the empty sequence, an all-deleted tree yields the empty
sequence, and no emitted descriptor has its deleted flag set. -/
theorem toRoutesJSON_flatten_dfs_order (routes : List RouteNode) :
    toRoutesJSON routes = (dfsLeaves routes).filter (fun d => !d.deleted) ∧
    toRoutesJSON ([] : List RouteNode) = [] ∧
    ((∀ d ∈ dfsLeaves routes, d.deleted = true) → toRoutesJSON routes = []) ∧
    (∀ d ∈ toRoutesJSON routes, d.deleted = false) := by
  refine ⟨toRoutesJSON_eq_filter_dfsLeaves routes, by simp [toRoutesJSON], ?_, ?_⟩
  · intro hAll
    rw [toRoutesJSON_eq_filter_dfsLeaves]
    refine List.filter_eq_nil_iff.mpr (fun d hd => ?_)
    simp [hAll d hd]
  · intro d hd
    rw [toRoutesJSON_eq_filter_dfsLeaves] at hd
    have := List.of_mem_filter hd
    simpa using this

/-- A tiny concrete tree for witnesses: the spec's example
`flatten([group([a, b]), resource([c, d]), e])`. -/
def mkRoute (pat : String) (del : Bool) : RouteDefination :=
  { method := "GET", pattern := pat, handler := "handler", middleware := [], deleted := del }

theorem toRoutesJSON_flatten_dfs_order_witness :
    toRoutesJSON [RouteNode.route (mkRoute "a" true),
                  RouteNode.group false [RouteNode.route (mkRoute "b" true)]] = [] ∧
    toRoutesJSON [RouteNode.group false [RouteNode.route (mkRoute "a" false),
                                         RouteNode.route (mkRoute "b" false)],
                  RouteNode.resource false [RouteNode.route (mkRoute "c" false),
                                            RouteNode.route (mkRoute "d" false)],
                  RouteNode.route (mkRoute "e" false)]
      = [mkRoute "a" false, mkRoute "b" false, mkRoute "c" false,
         mkRoute "d" false, mkRoute "e" false] := by
  constructor
  · exact (toRoutesJSON_flatten_dfs_order _).2.2.1
      (by simp [dfsLeaves, mkRoute])
  · simp [toRoutesJSON, mkRoute]

/-- Claim C10: the deleted flag is consulted only on leaf route nodes.  A
`RouteGroup` or `RouteResource` container is always expanded into the
flattening of its inner routes, whatever the value of any deleted marker
carried by the container itself; only a leaf route with `deleted = true`
is elided from the output. -/
theorem toRoutesJSON_container_mark_ignored (mark : Bool)
    (rs rest : List RouteNode) (d : RouteDefination) :
    toRoutesJSON (RouteNode.group mark rs :: rest)
      = toRoutesJSON rs ++ toRoutesJSON rest ∧
    toRoutesJSON (RouteNode.resource mark rs :: rest)
      = toRoutesJSON rs ++ toRoutesJSON rest ∧
    (d.deleted = true →
      toRoutesJSON (RouteNode.route d :: rest) = toRoutesJSON rest) ∧
    (d.deleted = false →
      toRoutesJSON (RouteNode.route d :: rest) = d :: toRoutesJSON rest) := by
  refine ⟨by simp [toRoutesJSON], by simp [toRoutesJSON], ?_, ?_⟩
  · intro hd; simp [toRoutesJSON, hd]
  · intro hd; simp [toRoutesJSON, hd]

theorem toRoutesJSON_container_mark_ignored_witness :
    toRoutesJSON [RouteNode.group true [RouteNode.route (mkRoute "a" false)]]
      = [mkRoute "a" false] ∧
    toRoutesJSON [RouteNode.route (mkRoute "b" true)] = [] := by
  have h := toRoutesJSON_container_mark_ignored true
    [RouteNode.route (mkRoute "a" false)] [] (mkRoute "b" true)
  refine ⟨?_, ?_⟩
  · rw [h.1]; simp [toRoutesJSON, mkRoute]
  · rw [h.2.2.1 rfl]; simp [toRoutesJSON]

/-! ## Theorems for the exception handler claims -/

/-- Sample data used by the witnesses below, mirroring the test file. -/
def jsonCtx : HttpContext := { requestId := "req-1", accept := "application/json" }

def htmlCtx : HttpContext := { requestId := "req-1", accept := "text/html" }

def badRequest : Err :=
  { message := "bad request", status := 500, code := some "E_BAD_REQUEST",
    stack := "Error: bad request\n  at test", reportHook := none, handleHook := none }

def defaultConfig : HandlerConfig :=
  { dontReport := [], ignoreStatuses := [], contextHook := fun _ => [] }

/-- Claim C2: for every error whose machine-readable code is in the
ignore-code set, or whose numeric status is in the ignore-status set,
`report` writes zero log entries to the injected logger. -/
theorem report_ignored_is_noop (cfg : HandlerConfig) (error : Err)
    (ctx : HttpContext)
    (h : (∃ c, error.code = some c ∧ c ∈ cfg.dontReport) ∨
         error.status ∈ cfg.ignoreStatuses) :
    report cfg error ctx = [] := by
  rcases h with ⟨c, hc, hmem⟩ | hstatus
  · simp [report, codeIgnored, hc, hmem]
  · by_cases hcode : codeIgnored cfg error = true
    · simp [report, hcode]
    · simp [report, hcode, hstatus]

theorem report_ignored_is_noop_witness :
    report { defaultConfig with dontReport := ["E_BAD_REQUEST"] }
      badRequest jsonCtx = [] ∧
    report { defaultConfig with ignoreStatuses := [500] }
      badRequest jsonCtx = [] := by
  constructor
  · exact report_ignored_is_noop _ _ _ (Or.inl ⟨"E_BAD_REQUEST", rfl, by simp⟩)
  · exact report_ignored_is_noop _ _ _ (Or.inr (by simp [badRequest]))

/-- Claim C4: for an error matching no ignore rule and carrying no custom
report hook, `report` produces exactly one log entry, at error severity,
whose message is `CODE: message` when a code is present and just the
message when the code is absent, with the request id and the context
hook's keys as extra context. -/
theorem report_default_single_entry (cfg : HandlerConfig) (error : Err)
    (ctx : HttpContext)
    (hcode : ∀ c, error.code = some c → c ∉ cfg.dontReport)
    (hstatus : error.status ∉ cfg.ignoreStatuses)
    (hhook : error.reportHook = none) :
    report cfg error ctx
      = [{ level := errorLevel,
           msg := match error.code with
                  | some c => c ++ ": " ++ error.message
                  | none => error.message,
           extra := ("x-request-id", ctx.requestId) :: cfg.contextHook ctx }] := by
  have hci : codeIgnored cfg error = false := by
    unfold codeIgnored
    cases hc : error.code with
    | none => rfl
    | some c => simpa using hcode c hc
  simp [report, hci, hstatus, hhook, defaultMessage]

theorem report_default_single_entry_witness :
    report defaultConfig badRequest jsonCtx
      = [{ level := 50, msg := "E_BAD_REQUEST: bad request",
           extra := [("x-request-id", "req-1")] }] := by
  have h := report_default_single_entry defaultConfig badRequest jsonCtx
    (by intro c hc; simp [defaultConfig]) (by simp [defaultConfig]) rfl
  simpa [badRequest, jsonCtx, defaultConfig, errorLevel] using h

/-- Claim C7: for every error exposing its own custom report hook and
matching no ignore rule, `report` invokes the hook and the default
log-writing path is skipped — the entries written are exactly the hook's
own. -/
theorem report_custom_hook_owns_logging (cfg : HandlerConfig) (error : Err)
    (ctx : HttpContext) (hook : HttpContext → List LogEntry)
    (hcode : ∀ c, error.code = some c → c ∉ cfg.dontReport)
    (hstatus : error.status ∉ cfg.ignoreStatuses)
    (hhook : error.reportHook = some hook) :
    report cfg error ctx = hook ctx := by
  have hci : codeIgnored cfg error = false := by
    unfold codeIgnored
    cases hc : error.code with
    | none => rfl
    | some c => simpa using hcode c hc
  simp [report, hci, hstatus, hhook]

theorem report_custom_hook_owns_logging_witness :
    report defaultConfig
      { badRequest with reportHook := some (fun _ => []) } jsonCtx = [] := by
  have h := report_custom_hook_owns_logging defaultConfig
    { badRequest with reportHook := some (fun _ => []) } jsonCtx (fun _ => [])
    (by intro c hc; simp [defaultConfig]) (by simp [defaultConfig]) rfl
  simpa using h

/-- Claim C8: overriding the context hook only extends the logged entry.
On the default logging path, the configuration whose context hook returns
the `username := virk` mapping logs a single entry that carries that key,
with the same message and the same severity as the single entry logged by
the same configuration with the default (empty) context hook. -/
theorem report_context_hook_extends (cfg : HandlerConfig) (error : Err)
    (ctx : HttpContext)
    (hcode : ∀ c, error.code = some c → c ∉ cfg.dontReport)
    (hstatus : error.status ∉ cfg.ignoreStatuses)
    (hhook : error.reportHook = none) :
    ∃ e0 e1,
      report { cfg with contextHook := fun _ => [] } error ctx = [e0] ∧
      report { cfg with contextHook := fun _ => [("username", "virk")] }
        error ctx = [e1] ∧
      ("username", "virk") ∈ e1.extra ∧
      e1.msg = e0.msg ∧ e1.level = e0.level := by
  refine ⟨_, _,
    report_default_single_entry _ error ctx hcode hstatus hhook,
    report_default_single_entry _ error ctx hcode hstatus hhook, ?_, rfl, rfl⟩
  simp

theorem report_context_hook_extends_witness :
    ∃ e0 e1,
      report { defaultConfig with contextHook := fun _ => [] }
        badRequest jsonCtx = [e0] ∧
      report { defaultConfig with contextHook := fun _ => [("username", "virk")] }
        badRequest jsonCtx = [e1] ∧
      ("username", "virk") ∈ e1.extra ∧
      e1.msg = e0.msg ∧ e1.level = e0.level :=
  report_context_hook_extends defaultConfig badRequest jsonCtx
    (by intro c hc; simp [defaultConfig]) (by simp [defaultConfig]) rfl

/-- Claim C9: reporting never throws.  Against any logger whose write
operation may fail, for every configuration, error and context, `report`
run with the defensive per-write try/catch terminates normally. -/
theorem report_never_throws (write : LogEntry → Except String Unit)
    (cfg : HandlerConfig) (error : Err) (ctx : HttpContext) :
    reportWith write cfg error ctx = Except.ok () := by
  unfold reportWith
  generalize report cfg error ctx = l
  induction l with
  | nil => rfl
  | cons e rest ih =>
      have ht : tryLog write e = Except.ok () := by
        unfold tryLog; cases hw : write e <;> rfl
      calc List.foldlM (fun _ e => tryLog write e) () (e :: rest)
          = tryLog write e >>= fun u =>
              List.foldlM (fun _ e => tryLog write e) u rest := rfl
        _ = List.foldlM (fun _ e => tryLog write e) () rest := by
              rw [ht]; rfl
        _ = Except.ok () := ih

/-- Claim C3: for every error exposing a custom handle hook, `handle`
resolves to exactly the hook's return value and performs none of the
default rendering (nothing is written to the response). -/
theorem handle_custom_hook_verbatim (dev : Bool) (error : Err)
    (ctx : HttpContext) (hook : HttpContext → String)
    (hh : error.handleHook = some hook) :
    handle dev error ctx = { returnValue := some (hook ctx), response := none } := by
  simp [handle, hh]

theorem handle_custom_hook_verbatim_witness :
    handle false { badRequest with handleHook := some (fun _ => "foo") } htmlCtx
      = { returnValue := some "foo", response := none } :=
  handle_custom_hook_verbatim false
    { badRequest with handleHook := some (fun _ => "foo") } htmlCtx
    (fun _ => "foo") rfl

/-- Claim C5: for every error with no custom handle hook, outside
development mode, `handle` negotiates on the Accept header: `text/html`
writes the minimal h1 wrapper around the message with end-flag false; any
other Accept value writes the JSON message object with end-flag false. -/
theorem handle_default_nondev (error : Err) (ctx : HttpContext)
    (hh : error.handleHook = none) :
    (ctx.accept = "text/html" →
      handle false error ctx
        = { returnValue := none,
            response := some
              (Body.text ("<h1> " ++ error.message ++ " </h1>"), false) }) ∧
    (ctx.accept ≠ "text/html" →
      handle false error ctx
        = { returnValue := none,
            response := some (Body.jsonMessage error.message, false) }) := by
  constructor
  · intro hac; simp [handle, hh, hac]
  · intro hac; simp [handle, hh, hac]

theorem handle_default_nondev_witness :
    handle false badRequest htmlCtx
      = { returnValue := none,
          response := some (Body.text "<h1> bad request </h1>", false) } ∧
    handle false badRequest jsonCtx
      = { returnValue := none,
          response := some (Body.jsonMessage "bad request", false) } := by
  constructor
  · exact (handle_default_nondev badRequest htmlCtx rfl).1 rfl
  · exact (handle_default_nondev badRequest jsonCtx rfl).2 (by simp [jsonCtx])

/-- Claim C6: for every error with no custom handle hook, in development
mode, JSON negotiation writes a body that additionally carries a non-empty
stack field holding the error's captured stack text, and HTML negotiation
writes the youch-style interactive stack-trace page — which carries the
interactive-trace-page signature and differs from the minimal h1
wrapper — with end-flag false in both cases. -/
theorem handle_dev_stack_and_youch (error : Err) (ctx : HttpContext)
    (hh : error.handleHook = none) (hstack : error.stack ≠ "") :
    (ctx.accept ≠ "text/html" →
      handle true error ctx
        = { returnValue := none,
            response := some
              (Body.jsonMessageStack error.message error.stack, false) } ∧
      error.stack ≠ "") ∧
    (ctx.accept = "text/html" →
      handle true error ctx
        = { returnValue := none,
            response := some (Body.text (youchHTML error), false) } ∧
      hasYouchSignature (youchHTML error) ∧
      youchHTML error ≠ "<h1> " ++ error.message ++ " </h1>") := by
  constructor
  · intro hac
    exact ⟨by simp [handle, hh, hac], hstack⟩
  · intro hac
    refine ⟨by simp [handle, hh, hac], ⟨_, rfl⟩, ?_⟩
    intro hcontra
    have hd := congrArg String.data hcontra
    simp [youchHTML, String.data_append] at hd

theorem handle_dev_stack_and_youch_witness :
    (handle true badRequest jsonCtx
      = { returnValue := none,
          response := some
            (Body.jsonMessageStack "bad request" "Error: bad request\n  at test",
             false) }) ∧
    (handle true badRequest htmlCtx
      = { returnValue := none,
          response := some (Body.text (youchHTML badRequest), false) }) ∧
    hasYouchSignature (youchHTML badRequest) := by
  have h := handle_dev_stack_and_youch badRequest jsonCtx rfl (by simp [badRequest])
  have h2 := handle_dev_stack_and_youch badRequest htmlCtx rfl (by simp [badRequest])
  exact ⟨(h.1 (by simp [jsonCtx])).1, (h2.2 rfl).1, (h2.2 rfl).2.1⟩

end AdonisDispatcher
